import Mathlib

/-
Verification of the prettylog pipeline (package internal): stream scanning,
JSON line classification, timestamp normalization, level colorization and
line rendering. The Go code is embedded shallowly: Go strings are Lean
strings, byte-level operations go through an explicit UTF-8 byte view,
int64 arithmetic is Int with explicit wrapping where overflow can occur,
and panics / errors are Except / Option. External collaborators
(json.Unmarshal, time.Parse, time formatting) are passed in as functions.
-/

namespace Prettylog

/-- UTF-8 encoding of one Unicode code point, as the list of its bytes. -/
def utf8EncodeChar (c : Char) : List Nat :=
  let n := c.toNat
  if n < 128 then [n]
  else if n < 2048 then [192 + n / 64, 128 + n % 64]
  else if n < 65536 then [224 + n / 4096, 128 + n / 64 % 64, 128 + n % 64]
  else [240 + n / 262144, 128 + n / 4096 % 64, 128 + n / 64 % 64, 128 + n % 64]

/-- Byte view of a Go string (Go strings are byte slices holding UTF-8). -/
def goBytes (s : String) : List Nat := s.data.flatMap utf8EncodeChar

/-- Go len(s): the byte length of a string. -/
def goLen (s : String) : Nat := (goBytes s).length

/-- Modelled from Go unicode.ToUpper, restricted to the code points this
development evaluates it on: ASCII letters are mapped to their uppercase,
and code points without a case mapping (such as CJK ideographs) map to
themselves, exactly as in Go. Cased non-ASCII code points are not used by
any theorem below. -/
def goCharUpper (c : Char) : Char :=
  if 97 ≤ c.toNat ∧ c.toNat ≤ 122 then Char.ofNat (c.toNat - 32) else c

/-- Modelled from Go unicode.ToLower under the same restriction as
goCharUpper. -/
def goCharLower (c : Char) : Char :=
  if 65 ≤ c.toNat ∧ c.toNat ≤ 90 then Char.ofNat (c.toNat + 32) else c

/-- Go strings.ToUpper: per-rune unicode.ToUpper. -/
def goToUpper (s : String) : String := String.mk (s.data.map goCharUpper)

/-- Go strings.ToLower: per-rune unicode.ToLower. -/
def goToLower (s : String) : String := String.mk (s.data.map goCharLower)

/-- Go source imin (func imin(a, b int) int). -/
def imin (a b : Int) : Int := if a < b then a else b

/-- The level label computation of PrettyPrint,
strings.ToUpper(data.Level)[:imin(4, len(data.Level))], at byte level:
a Go string slice takes bytes, and panics (modelled as none) when the
bound exceeds the byte length of the sliced string. -/
def levelLabelBytes (level : String) : Option (List Nat) :=
  if 0 ≤ imin 4 (goLen level) ∧
      imin 4 (goLen level) ≤ ((goBytes (goToUpper level)).length : Int) then
    some ((goBytes (goToUpper level)).take (imin 4 (goLen level)).toNat)
  else none

/-- The six rendering buckets for severity levels. -/
inductive LevelCategory where
  | debug
  | info
  | warn
  | error
  | fatal
  | unknown
deriving DecidableEq, Repr

/-- The branch taken by the switch on strings.ToLower(data.Level) in
PrettyPrint ("fatal" and "panic" share the FatalLevelColor branch). -/
def levelCategory (level : String) : LevelCategory :=
  match goToLower level with
  | "debug" => .debug
  | "info" => .info
  | "warn" => .warn
  | "warning" => .warn
  | "error" => .error
  | "fatal" => .fatal
  | "panic" => .fatal
  | _ => .unknown

/-- A fatih/color Color value, identified by the SGR codes handed to
color.New. Sprint wraps text in the corresponding escape sequence
(colors taken as enabled). -/
structure Color where
  codes : String
deriving DecidableEq, Repr

/-- color.Color.Sprint on a string argument. -/
def Color.sprint (c : Color) (s : String) : String :=
  "\x1b[" ++ c.codes ++ "m" ++ s ++ "\x1b[0m"

/-- color.Color.Sprint at byte level (the wrapped text may be an invalid
UTF-8 byte sequence). -/
def Color.sprintBytes (c : Color) (bs : List Nat) : List Nat :=
  goBytes ("\x1b[" ++ c.codes ++ "m") ++ bs ++ goBytes "\x1b[0m"

/-- Go source Palette. -/
structure Palette where
  KeyColor : Color
  ValColor : Color
  TimeColor : Color
  CallerColor : Color
  MsgLightBgColor : Color
  MsgAbsentLightBgColor : Color
  MsgDarkBgColor : Color
  MsgAbsentDarkBgColor : Color
  DebugLevelColor : Color
  InfoLevelColor : Color
  WarnLevelColor : Color
  ErrorLevelColor : Color
  PanicLevelColor : Color
  FatalLevelColor : Color
  UnknownLevelColor : Color
deriving DecidableEq, Repr

/-- Go source DefaultPalette, with the SGR codes of the fatih/color
attributes used there (FgGreen 32, FgHiWhite 97, FgWhite 37, FgBlue 34,
FgBlack 30, FgHiBlack 90, FgMagenta 35, FgCyan 36, FgYellow 33, FgRed 31,
BgRed 41, BgHiRed 101). -/
def DefaultPalette : Palette where
  KeyColor := ⟨"32"⟩
  ValColor := ⟨"97"⟩
  TimeColor := ⟨"37"⟩
  CallerColor := ⟨"34"⟩
  MsgLightBgColor := ⟨"30"⟩
  MsgAbsentLightBgColor := ⟨"90"⟩
  MsgDarkBgColor := ⟨"97"⟩
  MsgAbsentDarkBgColor := ⟨"37"⟩
  DebugLevelColor := ⟨"35"⟩
  InfoLevelColor := ⟨"36"⟩
  WarnLevelColor := ⟨"33"⟩
  ErrorLevelColor := ⟨"31"⟩
  PanicLevelColor := ⟨"41"⟩
  FatalLevelColor := ⟨"101;97"⟩
  UnknownLevelColor := ⟨"35"⟩

/-- The color the switch in PrettyPrint selects for each category. -/
def categoryColor : LevelCategory → Color
  | .debug => DefaultPalette.DebugLevelColor
  | .info => DefaultPalette.InfoLevelColor
  | .warn => DefaultPalette.WarnLevelColor
  | .error => DefaultPalette.ErrorLevelColor
  | .fatal => DefaultPalette.FatalLevelColor
  | .unknown => DefaultPalette.UnknownLevelColor

/-- Dynamically typed JSON-derived value: what a Go interface holds for an
entry of the map produced by json.Unmarshal. JSON numbers decode to
float64; the model carries the int64 truncation int64(f) that
parseTimeFloat64 starts from, together with the text fmt prints for the
value. Composite values (array, object) are carried together with their
fmt rendering. -/
inductive JsonValue where
  | str (s : String)
  | num (trunc : Int) (text : String)
  | bool (b : Bool)
  | null
  | arr (text : String)
  | obj (text : String)
deriving DecidableEq, Repr

/-- The text fmt.Sprint produces for a JSON-derived value (a nil interface
prints as <nil>). -/
def JsonValue.text : JsonValue → String
  | .str s => s
  | .num _ t => t
  | .bool b => if b then "true" else "false"
  | .null => "<nil>"
  | .arr t => t
  | .obj t => t

/-- Absolute instant: total nanoseconds since the Unix epoch (the value
determined by time.Unix(sec, nsec), which normalizes any nsec). -/
structure GoTime where
  nanos : Int
deriving DecidableEq, Repr

/-- Go time.Unix(sec, nsec). -/
def GoTime.unix (sec nsec : Int) : GoTime := ⟨sec * 1000000000 + nsec⟩

/-- The zero value of time.Time: January 1, year 1 UTC, Unix seconds
-62135596800. -/
def GoTime.zeroValue : GoTime := ⟨-62135596800 * 1000000000⟩

/-- Two's-complement wrap-around of signed 64-bit arithmetic. -/
def wrap64 (x : Int) : Int := (x + 2 ^ 63) % 2 ^ 64 - 2 ^ 63

/-- Go source parseTimeFloat64, as a function of v = int64(value). The
multiplications are int64 multiplications and wrap; Go / and % on int64
truncate toward zero (Int.tdiv / Int.tmod). -/
def parseTimeFloat64 (v : Int) : GoTime :=
  if v > 10 ^ 18 then
    GoTime.unix (v.tdiv (10 ^ 9)) (v.tmod (10 ^ 9))
  else if v > 10 ^ 15 then
    let w := wrap64 (v * 1000)
    GoTime.unix (w.tdiv (10 ^ 9)) (w.tmod (10 ^ 9))
  else if v > 10 ^ 12 then
    let w := wrap64 (v * 1000000)
    GoTime.unix (w.tdiv (10 ^ 9)) (w.tmod (10 ^ 9))
  else
    GoTime.unix v 0

/-- Go source: const timeFormat = time.DateTime. -/
def timeFormat : String := "2006-01-02 15:04:05"

/-- Go source formats, with the time package layout constants spelled
out. -/
def formats : List String :=
  [ "2006-01-02 15:04:05.999999999 -0700 MST"
  , "2006-01-02 15:04:05"
  , "2006-01-02T15:04:05-0700"
  , "2006-01-02T15:04:05Z07:00"
  , "2006-01-02T15:04:05.999999999Z07:00"
  , "02 Jan 06 15:04 MST"
  , "02 Jan 06 15:04 -0700"
  , "Monday, 02-Jan-06 15:04:05 MST"
  , "Mon, 02 Jan 2006 15:04:05 MST"
  , "Mon, 02 Jan 2006 15:04:05 -0700"
  , "Mon Jan _2 15:04:05 MST 2006"
  , "Mon Jan 02 15:04:05 -0700 2006"
  , "Mon Jan _2 15:04:05 2006"
  , "3:04PM"
  , "Jan _2 15:04:05"
  , "Jan _2 15:04:05.000"
  , "Jan _2 15:04:05.000000"
  , "Jan _2 15:04:05.000000000"
  , "2006/01/02 15:04:05"
  , "2006/01/02 15:04:05.999999999" ]

/-- Result of time.Parse for a given (layout, input) pair: an external
collaborator of the normalizer, passed in as a function. -/
abbrev ParseLayout := String → String → Option GoTime

/-- The loop of tryParseTime over the layout table: the first layout that
parses wins. -/
def tryFormats (pl : ParseLayout) : List String → String → Option GoTime
  | [], _ => none
  | f :: rest, s =>
    match pl f s with
    | some t => some t
    | none => tryFormats pl rest s

/-- Go source tryParseTime. A none argument models a nil interface (absent
key); JSON null and every non-string non-numeric value fall through the
switch and fail. All numeric cases of the Go switch funnel through
parseTimeFloat64, and JSON decoding only produces float64 numbers,
modelled by the num constructor. -/
def tryParseTime (pl : ParseLayout) (value : Option JsonValue) : Option GoTime :=
  match value with
  | some (.str s) => tryFormats pl formats s
  | some (.num v _) => some (parseTimeFloat64 v)
  | _ => none

/-- Association-list lookup, modelling a Go map read raw[k] (nil when the
key is absent). -/
def lookupKey (raw : List (String × JsonValue)) (k : String) : Option JsonValue :=
  match raw with
  | [] => none
  | p :: rest => if p.1 = k then some p.2 else lookupKey rest k

/-- Go delete(raw, k) on the association-list view of the map. -/
def eraseKey (raw : List (String × JsonValue)) (k : String) : List (String × JsonValue) :=
  raw.filter (fun p => p.1 ≠ k)

/-- Go source KV. -/
structure KV where
  Key : String
  Value : JsonValue
deriving DecidableEq, Repr

/-- Go source Structured. -/
structure Structured where
  Time : GoTime
  Msg : String
  Level : String
  KVs : List KV
deriving DecidableEq, Repr

/-- Go source Event. -/
structure Event where
  Structured : Option Structured
  Raw : String
deriving DecidableEq, Repr

/-- The ts step of TryHandleJson: if raw has a ts key whose value
tryParseTime resolves, take the instant and delete the key; otherwise
the time stays at the zero value of time.Time and the map is
untouched. -/
def takeTimeField (pl : ParseLayout)
    (raw : List (String × JsonValue)) : GoTime × List (String × JsonValue) :=
  match tryParseTime pl (lookupKey raw "ts") with
  | some tm => (tm, eraseKey raw "ts")
  | none => (GoTime.zeroValue, raw)

/-- The move-string-field step of TryHandleJson for the msg and level
keys (the Go pattern `if m, ok := raw[k].(string); ok`): if the key is
bound to a string, extract it and delete the key; otherwise the target
stays at the empty string and the map is untouched. -/
def takeStringField (raw : List (String × JsonValue))
    (k : String) : String × List (String × JsonValue) :=
  match lookupKey raw k with
  | some (.str m) => (m, eraseKey raw k)
  | _ => ("", raw)

/-- Go source TryHandleJson. The argument is the result of json.Unmarshal
into map[string]interface{}: none models a decode error (the function
returns false before touching out), some raw the decoded object as an
association list in whatever (unspecified) order map iteration produces.
The out parameter starts from the zero-valued Structured that Scan
allocates; the remaining entries are then appended to its empty KVs. -/
def TryHandleJson (pl : ParseLayout)
    (decoded : Option (List (String × JsonValue))) : Option Structured :=
  match decoded with
  | none => none
  | some raw0 =>
    let p1 := takeTimeField pl raw0
    let p2 := takeStringField p1.2 "msg"
    let p3 := takeStringField p2.2 "level"
    some { Time := p1.1, Msg := p2.1, Level := p3.1, KVs := p3.2.map (fun q => ⟨q.1, q.2⟩) }

/-- Go run-time panics the renderer can raise: the level-label slice out of
range, and the failed interface-to-string assertions on stacktrace and
caller values. -/
inductive GoPanic where
  | sliceOutOfRange
  | interfaceConversion
deriving DecidableEq, Repr

/-- Errors a bufio.Scanner can be left with: ErrTooLong for an oversized
line, or another read error. -/
inductive GoError where
  | errTooLong
  | ioError (msg : String)
deriving DecidableEq, Repr

/-- One rendered key=value segment: key and value independently colorized
(KeyColor and ValColor constant across all fields). -/
def renderKV (kv : KV) : String :=
  DefaultPalette.KeyColor.sprint kv.Key ++ "=" ++ DefaultPalette.ValColor.sprint kv.Value.text

/-- The field loop of PrettyPrint, with state (errorValue, caller, kvs):
stacktrace and caller entries are routed out of the generic list through
unchecked string assertions (a non-string value panics), every other
entry appends its rendered segment. -/
def kvLoop : List KV → String × String × List String → Except GoPanic (String × String × List String)
  | [], acc => .ok acc
  | kv :: rest, (errV, cal, segs) =>
    if kv.Key = "stacktrace" then
      match kv.Value with
      | .str s => kvLoop rest (s, cal, segs)
      | _ => .error .interfaceConversion
    else if kv.Key = "caller" then
      match kv.Value with
      | .str s => kvLoop rest (errV, s, segs)
      | _ => .error .interfaceConversion
    else
      kvLoop rest (errV, cal, segs ++ [renderKV kv])

/-- Boolean byte-order comparison of Go strings. On valid UTF-8 the
byte-wise order Go's sort.Strings uses coincides with the code-point
lexicographic order of the Lean strings, which is the order of the String
LinearOrder instance. -/
def strLe (a b : String) : Bool := decide (a ≤ b)

/-- Go sort.Strings: the result is the unique weakly sorted permutation of
the input, here produced by mergeSort. -/
def sortStrings (xs : List String) : List String := xs.mergeSort strLe

/-- Go strings.Join(xs, tab). -/
def tabJoin (xs : List String) : String := String.intercalate "\t" xs

/-- Top border of the traceback block, copied from the source. -/
def traceTop : String := "╭────────────────Traceback──────────"

/-- Bottom border of the traceback block, copied from the source. -/
def traceBottom : String := "╰───────────────────────────────────"

/-- The traceback block PrettyPrint appends when errorValue is nonempty:
border lines and the bar prefix are wrapped in ErrorLevelColor, one
content line per newline-delimited segment. -/
def traceBlock (errorValue : String) : List (List Nat) :=
  goBytes (DefaultPalette.ErrorLevelColor.sprint traceTop)
    :: (errorValue.splitOn "\n").map
        (fun line => goBytes (DefaultPalette.ErrorLevelColor.sprint "│" ++ line))
    ++ [goBytes (DefaultPalette.ErrorLevelColor.sprint traceBottom)]

/-- Go source PrettyPrint. fmtTime models data.Time.Format(timeFormat)
(calendar and zone formatting by the time package, an external
collaborator). The result is the list of log records written, each as a
byte sequence — the level label can be an invalid UTF-8 byte slice, so
records are byte lists; a panic aborts rendering. -/
def PrettyPrint (fmtTime : GoTime → String) (ev : Event) : Except GoPanic (List (List Nat)) :=
  match ev.Structured with
  | none => .ok [goBytes ev.Raw]
  | some data =>
    match levelLabelBytes data.Level with
    | none => .error .sliceOutOfRange
    | some lvlRaw =>
      let lvl := (categoryColor (levelCategory data.Level)).sprintBytes lvlRaw
      match kvLoop data.KVs ("", "", []) with
      | .error e => .error e
      | .ok (errorValue, caller, segs) =>
        let kvs := sortStrings segs
        let main :=
          goBytes (DefaultPalette.TimeColor.sprint (fmtTime data.Time) ++ " [") ++ lvl ++
            goBytes ("] " ++ data.Msg ++ "\t[" ++ DefaultPalette.CallerColor.sprint caller
              ++ "] " ++ tabJoin kvs)
        .ok (main :: (if errorValue = "" then [] else traceBlock errorValue))

/-- External collaborators of the scanner: json.Unmarshal (none models a
failed decode into a map), time.Parse per layout, and time formatting. -/
structure Env where
  decode : String → Option (List (String × JsonValue))
  parseLayout : ParseLayout
  fmtTime : GoTime → String

/-- The Event Scan builds for one line: classification via TryHandleJson,
falling back to the raw-only variant. -/
def mkEvent (env : Env) (line : String) : Event :=
  { Structured := TryHandleJson env.parseLayout (env.decode line), Raw := line }

/-- Go source Scan. The lines argument is the sequence of lines
bufio.Scanner delivers before in.Scan() first returns false, and readErr
is the error the scanner is then left with (none for clean EOF, some for
an oversized line or another read failure); the Go code never calls
in.Err(), so readErr does not influence the result. cancel k states
whether ctx.Done() has fired at the k-th per-line poll; the poll happens
after the line is rendered, and stopping through it returns nil. The
result collects the log records written together with the returned
error (none = nil). -/
def Scan (env : Env) : (Nat → Bool) → List String → Option GoError →
    Except GoPanic (List (List Nat) × Option GoError)
  | _, [], _readErr => .ok ([], none)
  | cancel, line :: rest, readErr =>
    match PrettyPrint env.fmtTime (mkEvent env line) with
    | .error e => .error e
    | .ok out =>
      if cancel 0 then .ok (out, none)
      else
        match Scan env (fun i => cancel (i + 1)) rest readErr with
        | .error e => .error e
        | .ok (outs, err) => .ok (out ++ outs, err)

/-- A cancellation signal that never fires. -/
def neverCancel : Nat → Bool := fun _ => false

/-- A concrete environment for closed instances: nothing decodes, no
layout parses, times format to the empty string. -/
def trivialEnv : Env where
  decode := fun _ => none
  parseLayout := fun _ _ => none
  fmtTime := fun _ => ""

end Prettylog

namespace Prettylog

/- Helper lemmas on characters, bytes and wrapping. -/

theorem toNat_ofNat_lt {n : Nat} (h : n < 128) : (Char.ofNat n).toNat = n := by
  have hv : n < 55296 ∨ 57343 < n ∧ n < 1114112 := Or.inl (by omega)
  simp [Char.ofNat, hv, Char.ofNatAux, Char.toNat, UInt32.toNat]

theorem utf8EncodeChar_ascii {c : Char} (h : c.toNat < 128) :
    utf8EncodeChar c = [c.toNat] := by
  simp [utf8EncodeChar, h]

theorem flatMap_utf8_ascii {l : List Char} (h : ∀ c ∈ l, c.toNat < 128) :
    l.flatMap utf8EncodeChar = l.map Char.toNat := by
  induction l with
  | nil => rfl
  | cons c cs ih =>
    rw [List.flatMap_cons, utf8EncodeChar_ascii (h c (by simp)), List.map_cons,
      ih (fun x hx => h x (by simp [hx]))]
    rfl

theorem goBytes_mk (l : List Char) : goBytes (String.mk l) = l.flatMap utf8EncodeChar := rfl

theorem goBytes_ascii {l : List Char} (h : ∀ c ∈ l, c.toNat < 128) :
    goBytes (String.mk l) = l.map Char.toNat := by
  rw [goBytes_mk, flatMap_utf8_ascii h]

theorem toNat_goCharUpper (c : Char) :
    (goCharUpper c).toNat =
      if 97 ≤ c.toNat ∧ c.toNat ≤ 122 then c.toNat - 32 else c.toNat := by
  unfold goCharUpper
  split
  · next h => exact toNat_ofNat_lt (by omega)
  · simp

theorem goCharUpper_ascii {c : Char} (h : c.toNat < 128) :
    (goCharUpper c).toNat < 128 := by
  rw [toNat_goCharUpper]
  split <;> omega

theorem goCharLower_goCharUpper {c : Char} (h : c.toNat < 128) :
    goCharLower (goCharUpper c) = goCharLower c := by
  unfold goCharUpper
  split
  · next h1 =>
    unfold goCharLower
    rw [toNat_ofNat_lt (by omega)]
    have h2 : 65 ≤ c.toNat - 32 ∧ c.toNat - 32 ≤ 90 := by omega
    have h3 : ¬ (65 ≤ c.toNat ∧ c.toNat ≤ 90) := by omega
    rw [if_pos h2, if_neg h3]
    have : c.toNat - 32 + 32 = c.toNat := by omega
    rw [this, Char.ofNat_toNat]
  · rfl

theorem goToLower_goToUpper {s : String} (h : ∀ c ∈ s.data, c.toNat < 128) :
    goToLower (goToUpper s) = goToLower s := by
  unfold goToLower goToUpper
  show String.mk ((s.data.map goCharUpper).map goCharLower) = _
  rw [List.map_map]
  congr 1
  exact List.map_congr_left fun c hc => goCharLower_goCharUpper (h c hc)

theorem wrap64_eq_self {x : Int} (h1 : -(2 ^ 63) ≤ x) (h2 : x < 2 ^ 63) :
    wrap64 x = x := by
  unfold wrap64
  rw [Int.emod_eq_of_lt (by omega) (by omega)]
  omega

theorem unix_tdiv_tmod (w : Int) :
    GoTime.unix (w.tdiv (10 ^ 9)) (w.tmod (10 ^ 9)) = ⟨w⟩ := by
  unfold GoTime.unix
  congr 1
  rw [mul_comm]
  exact Int.tdiv_add_tmod w (10 ^ 9)

/- C1. The spec requires an oversized line or any other stream read
failure to stop processing and surface as a non-nil error from Scan. The
loop exit in the Go code is `for in.Scan() { ... } return nil`: in.Err()
is never consulted, so the failure is swallowed. -/

/-- C1 (code_bug evidence): when the stream ends in a read failure — an
oversized line (bufio.ErrTooLong) or another I/O error — Scan still
returns nil: the return value is the same .ok with no error that a clean
end-of-stream produces, instead of the non-nil error the claim
requires. -/
theorem scan_swallows_read_failure :
    Scan trivialEnv neverCancel [] (some .errTooLong) = .ok ([], none) ∧
      Scan trivialEnv neverCancel [] (some (.ioError "read: connection reset")) =
        .ok ([], none) :=
  ⟨rfl, rfl⟩

/- C2. The spec requires a non-string value under the caller or
stacktrace keys to be treated as if the key were absent. The Go code
routes both through unchecked type assertions kv.Value.(string), which
panic on any non-string value. -/

/-- The structured record of a line such as a decoded
\x7b"stacktrace": 42\x7d: a single field binding stacktrace to the
number 42. -/
def stackNumRecord : Structured :=
  { Time := GoTime.zeroValue, Msg := "", Level := "", KVs := [⟨"stacktrace", .num 42 "42"⟩] }

/-- The structured record of a line such as a decoded
\x7b"caller": true\x7d: a single field binding caller to a boolean. -/
def callerBoolRecord : Structured :=
  { Time := GoTime.zeroValue, Msg := "", Level := "", KVs := [⟨"caller", .bool true⟩] }

/-- C2 (code_bug evidence): rendering an event whose fields bind
stacktrace (or caller) to a non-string value fails with the
interface-conversion panic of the unchecked kv.Value.(string) assertion,
instead of treating the key as absent and rendering the rest of the
line. -/
theorem prettyPrint_panics_on_nonstring_reserved_key :
    PrettyPrint trivialEnv.fmtTime { Structured := some stackNumRecord, Raw := "r" } =
        .error .interfaceConversion ∧
      PrettyPrint trivialEnv.fmtTime { Structured := some callerBoolRecord, Raw := "r" } =
        .error .interfaceConversion :=
  ⟨rfl, rfl⟩

/- C4. Numeric timestamp normalization. The claim describes the
threshold dispatch with mathematically exact products; the Go code
multiplies in int64, which wraps once the normalized nanosecond value
exceeds the int64 range (reachable from JSON input, e.g. ts = 1e13). -/

/-- Modelled from the spec's words for C4 (mathematically exact
arithmetic): v > 1e18 is nanoseconds directly; else v > 1e15 is
microseconds, multiplied by 1,000; else v > 1e12 is milliseconds,
multiplied by 1,000,000; else v is seconds. For the first three branches
the resulting instant is seconds = v / 1e9 with remainder v mod 1e9,
i.e. the instant whose total nanoseconds are the exact normalized
value. -/
def parseTimeFloat64Spec (v : Int) : GoTime :=
  if v > 10 ^ 18 then ⟨v⟩
  else if v > 10 ^ 15 then ⟨v * 1000⟩
  else if v > 10 ^ 12 then ⟨v * 1000000⟩
  else ⟨v * 1000000000⟩

/-- C4 (counterexample): at the integer-truncated value v = 1e13 (a JSON
number 10000000000000, an epoch-milliseconds magnitude) the milliseconds
branch computes 1e13 * 1e6 = 1e19 in int64, which wraps to a negative
instant instead of the exact nanosecond value the claim states. -/
theorem parseTimeFloat64_overflow_counterexample :
    parseTimeFloat64 (10 ^ 13) ≠ parseTimeFloat64Spec (10 ^ 13) ∧
      parseTimeFloat64 (10 ^ 13) = ⟨-8446744073709551616⟩ := by
  constructor
  · decide
  · rfl

/-- C4 (amended): for every int64 value v whose branch multiplication
does not overflow int64, the normalization follows exactly the claimed
top-to-bottom thresholds and produces the claimed instant; and numeric
input always succeeds, tryParseTime wrapping the result of
parseTimeFloat64 in success unconditionally. -/
theorem parseTimeFloat64_matches_spec (v : Int) (pl : ParseLayout) (s : String)
    (hlo : -(2 ^ 63) ≤ v) (hhi : v < 2 ^ 63)
    (hmicro : 10 ^ 15 < v → v ≤ 10 ^ 18 → v * 1000 < 2 ^ 63)
    (hmilli : 10 ^ 12 < v → v ≤ 10 ^ 15 → v * 1000000 < 2 ^ 63) :
    parseTimeFloat64 v = parseTimeFloat64Spec v ∧
      tryParseTime pl (some (.num v s)) = some (parseTimeFloat64 v) := by
  refine ⟨?_, rfl⟩
  unfold parseTimeFloat64 parseTimeFloat64Spec
  split
  · exact unix_tdiv_tmod v
  · next hn1 =>
    split
    · next hgt =>
      have hw : wrap64 (v * 1000) = v * 1000 :=
        wrap64_eq_self (by nlinarith) (hmicro hgt (by omega))
      simp only [hw]
      exact unix_tdiv_tmod (v * 1000)
    · next hn2 =>
      split
      · next hgt =>
        have hw : wrap64 (v * 1000000) = v * 1000000 :=
          wrap64_eq_self (by nlinarith) (hmilli hgt (by omega))
        simp only [hw]
        exact unix_tdiv_tmod (v * 1000000)
      · unfold GoTime.unix
        congr 1
        omega

/-- C4 (witness): the amended theorem applied at v = 2e15, an
epoch-microseconds magnitude whose normalization does not overflow. -/
theorem parseTimeFloat64_matches_spec_witness :
    parseTimeFloat64 (2 * 10 ^ 15) = parseTimeFloat64Spec (2 * 10 ^ 15) ∧
      tryParseTime trivialEnv.parseLayout (some (.num (2 * 10 ^ 15) "2e15")) =
        some (parseTimeFloat64 (2 * 10 ^ 15)) :=
  parseTimeFloat64_matches_spec (2 * 10 ^ 15) trivialEnv.parseLayout "2e15"
    (by decide) (by decide) (by decide) (by decide)

end Prettylog

namespace Prettylog

/- C3. Level colorizer. Go's len and slicing are byte-level, so the label
is a byte-truncation of the uppercased level: for ASCII levels this
coincides with truncation to at most 4 characters, for non-ASCII levels
it does not (it can split a character, and can even panic when
uppercasing shrinks the byte length below the slice bound). -/

theorem imin_toNat (n : Nat) : (imin 4 (n : Int)).toNat = min 4 n := by
  unfold imin
  split <;> omega

theorem take_min_length {α : Type} (l : List α) (n : Nat) (hl : l.length = n) :
    l.take (min 4 n) = l.take 4 := by
  subst hl
  rw [← List.take_take, List.take_length]

theorem levelLabelBytes_ascii {s : String} (h : ∀ c ∈ s.data, c.toNat < 128) :
    levelLabelBytes s = some (goBytes (String.mk ((goToUpper s).data.take 4))) := by
  have hdata : (goToUpper s).data = s.data.map goCharUpper := rfl
  have hupmem : ∀ c ∈ s.data.map goCharUpper, c.toNat < 128 := by
    intro c hc
    rcases List.mem_map.mp hc with ⟨a, ha, rfl⟩
    exact goCharUpper_ascii (h a ha)
  have hupper : goBytes (goToUpper s) = (s.data.map goCharUpper).map Char.toNat :=
    goBytes_ascii hupmem
  have hlow : goBytes s = s.data.map Char.toNat := goBytes_ascii h
  have hlen : goLen s = s.data.length := by
    unfold goLen
    rw [hlow, List.length_map]
  have hulen : (goBytes (goToUpper s)).length = s.data.length := by
    rw [hupper]
    simp
  unfold levelLabelBytes
  rw [if_pos ?hcond]
  case hcond =>
    refine ⟨?_, ?_⟩
    · unfold imin
      split <;> omega
    · rw [hlen, hulen]
      unfold imin
      split <;> omega
  congr 1
  rw [hlen, imin_toNat, hupper]
  have htakeascii : ∀ c ∈ (goToUpper s).data.take 4, c.toNat < 128 := by
    intro c hc
    rw [hdata] at hc
    exact hupmem c (List.take_subset _ _ hc)
  rw [goBytes_ascii htakeascii, hdata, List.map_take]
  exact take_min_length _ _ (by simp)

theorem levelCategory_goToUpper {s : String} (h : ∀ c ∈ s.data, c.toNat < 128) :
    levelCategory (goToUpper s) = levelCategory s := by
  unfold levelCategory
  rw [goToLower_goToUpper h]

theorem levelCategory_default {s : String}
    (hnot : goToLower s ∉
      (["debug", "info", "warn", "warning", "error", "fatal", "panic"] : List String)) :
    levelCategory s = .unknown := by
  unfold levelCategory
  split
  all_goals first
    | rfl
    | (exfalso; exact hnot (by simp_all))

/-- C3 (counterexample): for a level of two CJK ideographs (code points
with no Unicode case mapping, so ToUpper is the identity on them), the
rendered label is the first four bytes of the uppercased string — cutting
the second character in half — and not the level uppercased and truncated
to at most 4 characters, which would be the whole 2-character string. -/
theorem levelLabel_counterexample :
    levelLabelBytes "中中" ≠ some (goBytes (String.mk ((goToUpper "中中").data.take 4))) ∧
      levelLabelBytes "中中" = some [228, 184, 173, 228] := by
  constructor
  · decide
  · rfl

/-- C3 (amended): the category is chosen case-insensitively with the
claimed mapping (debug, info, warn/warning, error, fatal/panic, anything
else unknown), and for every ASCII level string the label is the level
uppercased and truncated to at most 4 characters (fewer if shorter); for
non-ASCII levels the code instead truncates the uppercased level to
imin(4, byte length) bytes, which can split a character. -/
theorem levelColorizer_spec (s : String) (hascii : ∀ c ∈ s.data, c.toNat < 128) :
    levelCategory (goToUpper s) = levelCategory s ∧
      (goToLower s ∉
          (["debug", "info", "warn", "warning", "error", "fatal", "panic"] : List String) →
        levelCategory s = .unknown) ∧
      levelLabelBytes s = some (goBytes (String.mk ((goToUpper s).data.take 4))) ∧
      levelCategory "DEBUG" = .debug ∧ levelCategory "Info" = .info ∧
      levelCategory "warn" = .warn ∧ levelCategory "Warning" = .warn ∧
      levelCategory "eRRor" = .error ∧ levelCategory "FATAL" = .fatal ∧
      levelCategory "Panic" = .fatal ∧ levelCategory "" = .unknown ∧
      levelCategory "trace" = .unknown :=
  ⟨levelCategory_goToUpper hascii, levelCategory_default,
    levelLabelBytes_ascii hascii, by decide, by decide, by decide, by decide,
    by decide, by decide, by decide, by decide, by decide⟩

/-- C3 (witness): the amended theorem applied at the unrecognized ASCII
level "trace": Unknown category, label TRAC. -/
theorem levelColorizer_spec_witness :
    levelCategory (goToUpper "trace") = levelCategory "trace" ∧
      (goToLower "trace" ∉
          (["debug", "info", "warn", "warning", "error", "fatal", "panic"] : List String) →
        levelCategory "trace" = .unknown) ∧
      levelLabelBytes "trace" =
        some (goBytes (String.mk ((goToUpper "trace").data.take 4))) ∧
      levelCategory "DEBUG" = .debug ∧ levelCategory "Info" = .info ∧
      levelCategory "warn" = .warn ∧ levelCategory "Warning" = .warn ∧
      levelCategory "eRRor" = .error ∧ levelCategory "FATAL" = .fatal ∧
      levelCategory "Panic" = .fatal ∧ levelCategory "" = .unknown ∧
      levelCategory "trace" = .unknown :=
  levelColorizer_spec "trace" (by decide)

end Prettylog

namespace Prettylog

/- C5. Field routing in the classifier: ts / msg / level extraction and
what remains in the generic field set. -/

theorem mem_eraseKey {raw : List (String × JsonValue)} {p : String × JsonValue}
    {k : String} : p ∈ eraseKey raw k ↔ p ∈ raw ∧ p.1 ≠ k := by
  unfold eraseKey
  simp [List.mem_filter]

theorem eraseKey_subset (raw : List (String × JsonValue)) (k : String) :
    eraseKey raw k ⊆ raw :=
  (List.filter_sublist _).subset

theorem lookupKey_eraseKey_ne {raw : List (String × JsonValue)} {k k' : String}
    (h : k' ≠ k) : lookupKey (eraseKey raw k) k' = lookupKey raw k' := by
  induction raw with
  | nil => rfl
  | cons p rest ih =>
    by_cases hp : p.1 = k
    · have he : eraseKey (p :: rest) k = eraseKey rest k := by
        simp [eraseKey, List.filter_cons, hp]
      rw [he, ih]
      have hpk : p.1 ≠ k' := by
        rw [hp]
        exact fun hh => h hh.symm
      simp [lookupKey, hpk]
    · have he : eraseKey (p :: rest) k = p :: eraseKey rest k := by
        simp [eraseKey, List.filter_cons, hp]
      rw [he]
      by_cases hpk : p.1 = k'
      · simp [lookupKey, hpk]
      · simp [lookupKey, hpk, ih]

theorem lookupKey_mem {raw : List (String × JsonValue)} {k : String} {v : JsonValue}
    (h : lookupKey raw k = some v) : (k, v) ∈ raw := by
  induction raw with
  | nil => simp [lookupKey] at h
  | cons p rest ih =>
    unfold lookupKey at h
    split at h
    · next heq =>
      have hp : p = (k, v) := by
        cases p
        simp_all
      rw [List.mem_cons]
      exact Or.inl hp.symm
    · exact List.mem_cons.mpr (Or.inr (ih h))

theorem takeTimeField_some {pl : ParseLayout} {raw : List (String × JsonValue)}
    {t : GoTime} (h : tryParseTime pl (lookupKey raw "ts") = some t) :
    takeTimeField pl raw = (t, eraseKey raw "ts") := by
  unfold takeTimeField
  rw [h]

theorem takeTimeField_none {pl : ParseLayout} {raw : List (String × JsonValue)}
    (h : tryParseTime pl (lookupKey raw "ts") = none) :
    takeTimeField pl raw = (GoTime.zeroValue, raw) := by
  unfold takeTimeField
  rw [h]

theorem takeTimeField_preserves {pl : ParseLayout} {raw : List (String × JsonValue)}
    {k' : String} (h : k' ≠ "ts") :
    lookupKey (takeTimeField pl raw).2 k' = lookupKey raw k' := by
  unfold takeTimeField
  split
  · exact lookupKey_eraseKey_ne h
  · rfl

theorem takeTimeField_mem {pl : ParseLayout} {raw : List (String × JsonValue)}
    {p : String × JsonValue} (hp : p ∈ raw) (hne : p.1 ≠ "ts") :
    p ∈ (takeTimeField pl raw).2 := by
  unfold takeTimeField
  split
  · exact mem_eraseKey.mpr ⟨hp, hne⟩
  · exact hp

theorem takeStringField_str {raw : List (String × JsonValue)} {k : String}
    {m : String} (h : lookupKey raw k = some (.str m)) :
    takeStringField raw k = (m, eraseKey raw k) := by
  unfold takeStringField
  rw [h]

theorem takeStringField_nonstr {raw : List (String × JsonValue)} {k : String}
    (h : ∀ m, lookupKey raw k ≠ some (.str m)) :
    takeStringField raw k = ("", raw) := by
  unfold takeStringField
  split
  · next m heq => exact absurd heq (h m)
  · rfl

theorem takeStringField_preserves {raw : List (String × JsonValue)} {k k' : String}
    (h : k' ≠ k) :
    lookupKey (takeStringField raw k).2 k' = lookupKey raw k' := by
  unfold takeStringField
  split
  · exact lookupKey_eraseKey_ne h
  · rfl

theorem takeStringField_mem {raw : List (String × JsonValue)} {k : String}
    {p : String × JsonValue} (hp : p ∈ raw) (hne : p.1 ≠ k) :
    p ∈ (takeStringField raw k).2 := by
  unfold takeStringField
  split
  · exact mem_eraseKey.mpr ⟨hp, hne⟩
  · exact hp

theorem takeStringField_subset (raw : List (String × JsonValue)) (k : String) :
    (takeStringField raw k).2 ⊆ raw := by
  unfold takeStringField
  split
  · exact eraseKey_subset _ _
  · exact fun a ha => ha

/-- C5: on every decoded JSON object, classification succeeds and routes
fields as claimed: a ts value the normalizer resolves sets the time and
leaves no ts entry in the generic field set, otherwise time stays at the
zero value and a present ts entry stays; a string msg is moved into the
message and removed, otherwise the message stays empty and a present
(necessarily non-string) msg entry stays in the field set; and the same
rule applies to level. -/
theorem tryHandleJson_field_routing (pl : ParseLayout)
    (raw0 : List (String × JsonValue)) :
    ∃ out, TryHandleJson pl (some raw0) = some out ∧
      (∀ t, tryParseTime pl (lookupKey raw0 "ts") = some t →
        out.Time = t ∧ ∀ v, KV.mk "ts" v ∉ out.KVs) ∧
      (tryParseTime pl (lookupKey raw0 "ts") = none →
        out.Time = GoTime.zeroValue ∧
          ∀ v, lookupKey raw0 "ts" = some v → KV.mk "ts" v ∈ out.KVs) ∧
      (∀ m, lookupKey raw0 "msg" = some (.str m) →
        out.Msg = m ∧ ∀ v, KV.mk "msg" v ∉ out.KVs) ∧
      ((∀ m, lookupKey raw0 "msg" ≠ some (.str m)) →
        out.Msg = "" ∧
          ∀ v, lookupKey raw0 "msg" = some v → KV.mk "msg" v ∈ out.KVs) ∧
      (∀ l, lookupKey raw0 "level" = some (.str l) →
        out.Level = l ∧ ∀ v, KV.mk "level" v ∉ out.KVs) ∧
      ((∀ l, lookupKey raw0 "level" ≠ some (.str l)) →
        out.Level = "" ∧
          ∀ v, lookupKey raw0 "level" = some v → KV.mk "level" v ∈ out.KVs) := by
  simp only [TryHandleJson]
  refine ⟨_, rfl, ?_, ?_, ?_, ?_, ?_, ?_⟩
  · intro t ht
    constructor
    · show (takeTimeField pl raw0).1 = t
      rw [takeTimeField_some ht]
    · intro v hv
      rcases List.mem_map.mp hv with ⟨q, hq, hmk⟩
      have h1 : q.1 = "ts" := congrArg KV.Key hmk
      have hq2 := takeStringField_subset _ "level" hq
      have hq3 := takeStringField_subset _ "msg" hq2
      rw [takeTimeField_some ht] at hq3
      exact (mem_eraseKey.mp hq3).2 h1
  · intro ht
    constructor
    · show (takeTimeField pl raw0).1 = GoTime.zeroValue
      rw [takeTimeField_none ht]
    · intro v hv
      refine List.mem_map.mpr ⟨("ts", v), ?_, rfl⟩
      have hmem : ("ts", v) ∈ raw0 := lookupKey_mem hv
      have h1 : (("ts", v) : String × JsonValue) ∈ (takeTimeField pl raw0).2 := by
        rw [takeTimeField_none ht]
        exact hmem
      exact takeStringField_mem
        (takeStringField_mem h1 (show ("ts" : String) ≠ "msg" by decide))
        (show ("ts" : String) ≠ "level" by decide)
  · intro m hm
    have hl1 : lookupKey (takeTimeField pl raw0).2 "msg" = some (.str m) := by
      rw [takeTimeField_preserves (by decide)]
      exact hm
    constructor
    · show (takeStringField (takeTimeField pl raw0).2 "msg").1 = m
      rw [takeStringField_str hl1]
    · intro v hv
      rcases List.mem_map.mp hv with ⟨q, hq, hmk⟩
      have h1 : q.1 = "msg" := congrArg KV.Key hmk
      have hq2 := takeStringField_subset _ "level" hq
      rw [takeStringField_str hl1] at hq2
      exact (mem_eraseKey.mp hq2).2 h1
  · intro hm
    have hl1 : ∀ m, lookupKey (takeTimeField pl raw0).2 "msg" ≠ some (.str m) := by
      intro m
      rw [takeTimeField_preserves (by decide)]
      exact hm m
    constructor
    · show (takeStringField (takeTimeField pl raw0).2 "msg").1 = ""
      rw [takeStringField_nonstr hl1]
    · intro v hv
      refine List.mem_map.mpr ⟨("msg", v), ?_, rfl⟩
      have hmem : ("msg", v) ∈ raw0 := lookupKey_mem hv
      have h1 : (("msg", v) : String × JsonValue) ∈ (takeTimeField pl raw0).2 :=
        takeTimeField_mem hmem (show ("msg" : String) ≠ "ts" by decide)
      have h2 : (("msg", v) : String × JsonValue) ∈
          (takeStringField (takeTimeField pl raw0).2 "msg").2 := by
        rw [takeStringField_nonstr hl1]
        exact h1
      exact takeStringField_mem h2 (show ("msg" : String) ≠ "level" by decide)
  · intro l hl
    have hl1 : lookupKey (takeStringField (takeTimeField pl raw0).2 "msg").2 "level" =
        some (.str l) := by
      rw [takeStringField_preserves (by decide), takeTimeField_preserves (by decide)]
      exact hl
    constructor
    · show (takeStringField (takeStringField (takeTimeField pl raw0).2 "msg").2 "level").1 = l
      rw [takeStringField_str hl1]
    · intro v hv
      rcases List.mem_map.mp hv with ⟨q, hq, hmk⟩
      have h1 : q.1 = "level" := congrArg KV.Key hmk
      rw [takeStringField_str hl1] at hq
      exact (mem_eraseKey.mp hq).2 h1
  · intro hl
    have hl1 : ∀ l, lookupKey (takeStringField (takeTimeField pl raw0).2 "msg").2 "level" ≠
        some (.str l) := by
      intro l
      rw [takeStringField_preserves (by decide), takeTimeField_preserves (by decide)]
      exact hl l
    constructor
    · show (takeStringField (takeStringField (takeTimeField pl raw0).2 "msg").2 "level").1 = ""
      rw [takeStringField_nonstr hl1]
    · intro v hv
      refine List.mem_map.mpr ⟨("level", v), ?_, rfl⟩
      have hmem : ("level", v) ∈ raw0 := lookupKey_mem hv
      have h1 : (("level", v) : String × JsonValue) ∈ (takeTimeField pl raw0).2 :=
        takeTimeField_mem hmem (show ("level" : String) ≠ "ts" by decide)
      have h2 : (("level", v) : String × JsonValue) ∈
          (takeStringField (takeTimeField pl raw0).2 "msg").2 :=
        takeStringField_mem h1 (show ("level" : String) ≠ "msg" by decide)
      rw [takeStringField_nonstr hl1]
      exact h2

end Prettylog

namespace Prettylog

/- C6. Raw fallback. The classifier falls back to raw exactly when
json.Unmarshal into the map errors. That is NOT the same as "the line is
not a JSON object": encoding/json accepts the JSON literal null into a
map without error (leaving the map empty), so the line null — valid
JSON, not an object — classifies as structured and renders as a
decorated line, refuting the claim as stated (counterexample below). For
every line on which the decode errors (malformed JSON, empty input, any
non-object JSON other than null) the claimed raw rendering holds. -/

/-- C6 (amended): a line on which the JSON decode fails (malformed JSON,
empty input, or any non-object JSON other than the literal null)
classifies as raw — not an error — and renders exactly as it arrived:
the single output record is the line's own bytes, with no timestamp,
level, caller or field decoration added. -/
theorem rawLine_renders_unmodified (env : Env) (line : String)
    (hdec : env.decode line = none) :
    (mkEvent env line).Structured = none ∧
      PrettyPrint env.fmtTime (mkEvent env line) = .ok [goBytes line] := by
  have h1 : (mkEvent env line).Structured = none := by
    show TryHandleJson env.parseLayout (env.decode line) = none
    rw [hdec]
    rfl
  refine ⟨h1, ?_⟩
  unfold PrettyPrint
  rw [h1]
  rfl

/-- C6 (witness): the raw path taken on the line "plain text error" in an
environment where it does not decode. -/
theorem rawLine_renders_unmodified_witness :
    trivialEnv.decode "plain text error" = none ∧
      (mkEvent trivialEnv "plain text error").Structured = none ∧
        PrettyPrint trivialEnv.fmtTime (mkEvent trivialEnv "plain text error") =
          .ok [goBytes "plain text error"] :=
  ⟨rfl, rawLine_renders_unmodified trivialEnv "plain text error" rfl⟩

/- Helpers for the renderer theorems C7 and C8. -/

theorem goBytes_append (a b : String) : goBytes (a ++ b) = goBytes a ++ goBytes b := by
  unfold goBytes
  rw [String.data_append, List.flatMap_append]

/-- The generic entries of a field list: every entry whose key is neither
stacktrace nor caller (those the loop routes to dedicated slots). -/
def generics (kvs : List KV) : List KV :=
  kvs.filter (fun kv => !(kv.Key == "stacktrace") && !(kv.Key == "caller"))

/-- The last string bound to key k in the field list, with default d:
what the repeated assignments of the loop leave in errorValue (k =
stacktrace, d = "") and caller (k = caller, d = ""). -/
def lastStrVal (k : String) (kvs : List KV) (d : String) : String :=
  kvs.foldl (fun acc kv =>
    if kv.Key = k then
      match kv.Value with
      | .str s => s
      | _ => acc
    else acc) d

theorem kvLoop_ok (kvs : List KV)
    (hstr : ∀ kv ∈ kvs, (kv.Key = "stacktrace" ∨ kv.Key = "caller") →
      ∃ s, kv.Value = .str s) :
    ∀ e c segs, kvLoop kvs (e, c, segs) =
      .ok (lastStrVal "stacktrace" kvs e, lastStrVal "caller" kvs c,
        segs ++ (generics kvs).map renderKV) := by
  induction kvs with
  | nil =>
    intro e c segs
    simp [kvLoop, lastStrVal, generics]
  | cons kv rest ih =>
    intro e c segs
    have hrest : ∀ x ∈ rest, (x.Key = "stacktrace" ∨ x.Key = "caller") →
        ∃ s, x.Value = .str s :=
      fun x hx => hstr x (List.mem_cons.mpr (Or.inr hx))
    by_cases h1 : kv.Key = "stacktrace"
    · rcases hstr kv (by simp) (Or.inl h1) with ⟨s, hs⟩
      have h2 : kv.Key ≠ "caller" := by
        rw [h1]
        decide
      simp only [kvLoop, h1, hs, if_pos rfl]
      rw [ih hrest s c segs]
      simp [lastStrVal, generics, h1, h2, hs]
    · by_cases h2 : kv.Key = "caller"
      · rcases hstr kv (by simp) (Or.inr h2) with ⟨s, hs⟩
        simp only [kvLoop, h1, h2, hs, if_neg h1, if_pos rfl]
        rw [ih hrest e s segs]
        simp [lastStrVal, generics, h1, h2, hs]
      · simp only [kvLoop, if_neg h1, if_neg h2]
        rw [ih hrest e c (segs ++ [renderKV kv])]
        simp [lastStrVal, generics, h1, h2]

theorem strLe_trans : ∀ a b c : String, strLe a b = true → strLe b c = true →
    strLe a c = true := by
  intro a b c hab hbc
  simp only [strLe, decide_eq_true_eq] at *
  exact le_trans hab hbc

theorem strLe_total : ∀ a b : String, (strLe a b || strLe b a) = true := by
  intro a b
  simp only [strLe, Bool.or_eq_true, decide_eq_true_eq]
  exact le_total a b

theorem sortStrings_perm (xs : List String) : (sortStrings xs).Perm xs :=
  List.mergeSort_perm xs strLe

theorem sortStrings_sorted (xs : List String) :
    List.Sorted (fun a b : String => a ≤ b) (sortStrings xs) := by
  have h := List.sorted_mergeSort strLe_trans strLe_total xs
  exact h.imp fun hab => by simpa [strLe] using hab

theorem sortStrings_eq_of_perm {xs ys : List String} (h : xs.Perm ys) :
    sortStrings xs = sortStrings ys := by
  refine List.eq_of_perm_of_sorted ?_ (sortStrings_sorted xs) (sortStrings_sorted ys)
  exact (sortStrings_perm xs).trans (h.trans (sortStrings_perm ys).symm)

end Prettylog

namespace Prettylog

/-- A concrete decoded object with a numeric ts, a string msg, a boolean
level and one extra key. -/
def routingSample : List (String × JsonValue) :=
  [("ts", .num 1 "1"), ("msg", .str "hi"), ("level", .bool true), ("extra", .str "e")]

/-- C5 (witness): the routing theorem applied to routingSample, whose ts
resolves numerically, whose msg is a string and whose level is a
non-string. -/
theorem tryHandleJson_field_routing_witness :
    ∃ out, TryHandleJson trivialEnv.parseLayout (some routingSample) = some out ∧
      (∀ t, tryParseTime trivialEnv.parseLayout (lookupKey routingSample "ts") = some t →
        out.Time = t ∧ ∀ v, KV.mk "ts" v ∉ out.KVs) ∧
      (tryParseTime trivialEnv.parseLayout (lookupKey routingSample "ts") = none →
        out.Time = GoTime.zeroValue ∧
          ∀ v, lookupKey routingSample "ts" = some v → KV.mk "ts" v ∈ out.KVs) ∧
      (∀ m, lookupKey routingSample "msg" = some (.str m) →
        out.Msg = m ∧ ∀ v, KV.mk "msg" v ∉ out.KVs) ∧
      ((∀ m, lookupKey routingSample "msg" ≠ some (.str m)) →
        out.Msg = "" ∧
          ∀ v, lookupKey routingSample "msg" = some v → KV.mk "msg" v ∈ out.KVs) ∧
      (∀ l, lookupKey routingSample "level" = some (.str l) →
        out.Level = l ∧ ∀ v, KV.mk "level" v ∉ out.KVs) ∧
      ((∀ l, lookupKey routingSample "level" ≠ some (.str l)) →
        out.Level = "" ∧
          ∀ v, lookupKey routingSample "level" = some v → KV.mk "level" v ∈ out.KVs) :=
  tryHandleJson_field_routing trivialEnv.parseLayout routingSample

/-- Shape of the renderer's output on a structured event that renders
without panic: the single main line (time, level label, message, caller,
tab-joined sorted key=value segments) followed by the traceback block
when the extracted stacktrace string is nonempty. -/
theorem prettyPrint_structured (fmt : GoTime → String) (raw : String) (data : Structured)
    {lb : List Nat} (hlb : levelLabelBytes data.Level = some lb)
    (hstr : ∀ kv ∈ data.KVs, (kv.Key = "stacktrace" ∨ kv.Key = "caller") →
      ∃ s, kv.Value = .str s) :
    PrettyPrint fmt { Structured := some data, Raw := raw } =
      .ok ((goBytes (DefaultPalette.TimeColor.sprint (fmt data.Time) ++ " [") ++
          (categoryColor (levelCategory data.Level)).sprintBytes lb ++
          goBytes ("] " ++ data.Msg ++ "\t[" ++
            DefaultPalette.CallerColor.sprint (lastStrVal "caller" data.KVs "") ++ "] " ++
            tabJoin (sortStrings ((generics data.KVs).map renderKV)))) ::
        (if lastStrVal "stacktrace" data.KVs "" = "" then []
          else traceBlock (lastStrVal "stacktrace" data.KVs ""))) := by
  unfold PrettyPrint
  show (match levelLabelBytes data.Level with
    | none => Except.error GoPanic.sliceOutOfRange
    | some lvlRaw =>
      let lvl := (categoryColor (levelCategory data.Level)).sprintBytes lvlRaw
      match kvLoop data.KVs ("", "", []) with
      | Except.error e => Except.error e
      | Except.ok (errorValue, caller, segs) =>
        let kvs := sortStrings segs
        let main :=
          goBytes (DefaultPalette.TimeColor.sprint (fmt data.Time) ++ " [") ++ lvl ++
            goBytes ("] " ++ data.Msg ++ "\t[" ++
              DefaultPalette.CallerColor.sprint caller ++ "] " ++ tabJoin kvs)
        Except.ok (main :: if errorValue = "" then [] else traceBlock errorValue)) = _
  rw [hlb, kvLoop_ok data.KVs hstr "" "" []]
  simp

/-- C7: for every structured event that renders (reserved-key values are
strings, the level label slice is in range), the key=value segments of
the rendered line are exactly one per generic field — a permutation of
the renderings of the fields other than the extracted reserved keys —
sorted lexicographically as rendered text; the sorted segment list is
identical for every permutation of the field set (a deterministic total
order on the record); and the main output line embeds the tab-joined
sorted segments. -/
theorem renderer_kv_ordering (fmt : GoTime → String) (raw : String) (data : Structured)
    (hstr : ∀ kv ∈ data.KVs, (kv.Key = "stacktrace" ∨ kv.Key = "caller") →
      ∃ s, kv.Value = .str s)
    (hlvl : (levelLabelBytes data.Level).isSome) :
    (sortStrings ((generics data.KVs).map renderKV)).Perm
        ((generics data.KVs).map renderKV) ∧
      List.Sorted (fun a b : String => a ≤ b)
        (sortStrings ((generics data.KVs).map renderKV)) ∧
      (∀ kvs2 : List KV, kvs2.Perm data.KVs →
        sortStrings ((generics kvs2).map renderKV) =
          sortStrings ((generics data.KVs).map renderKV)) ∧
      ∃ pre rest, PrettyPrint fmt { Structured := some data, Raw := raw } =
        .ok ((pre ++ goBytes (tabJoin (sortStrings ((generics data.KVs).map renderKV)))) ::
          rest) := by
  refine ⟨sortStrings_perm _, sortStrings_sorted _, ?_, ?_⟩
  · intro kvs2 hperm
    exact sortStrings_eq_of_perm ((hperm.filter _).map _)
  · rcases Option.isSome_iff_exists.mp hlvl with ⟨lb, hlb⟩
    refine ⟨goBytes (DefaultPalette.TimeColor.sprint (fmt data.Time) ++ " [") ++
        (categoryColor (levelCategory data.Level)).sprintBytes lb ++
        goBytes ("] " ++ data.Msg ++ "\t[" ++
          DefaultPalette.CallerColor.sprint (lastStrVal "caller" data.KVs "") ++ "] "),
      (if lastStrVal "stacktrace" data.KVs "" = "" then []
        else traceBlock (lastStrVal "stacktrace" data.KVs "")), ?_⟩
    rw [prettyPrint_structured fmt raw data hlb hstr]
    congr 1
    simp [goBytes_append, List.append_assoc]

/-- A concrete field list with two generic keys out of order and a
caller entry. -/
def orderingSample : List KV :=
  [⟨"b", .str "2"⟩, ⟨"a", .str "1"⟩, ⟨"caller", .str "x.go:1"⟩]

/-- A concrete structured record over orderingSample with level info. -/
def orderingRecord : Structured :=
  { Time := GoTime.zeroValue, Msg := "m", Level := "info", KVs := orderingSample }

/-- C7 (witness): the ordering theorem applied to a record with fields b,
a, caller (in that order) and level info. -/
theorem renderer_kv_ordering_witness :
    (sortStrings ((generics orderingSample).map renderKV)).Perm
        ((generics orderingSample).map renderKV) ∧
      List.Sorted (fun a b : String => a ≤ b)
        (sortStrings ((generics orderingSample).map renderKV)) ∧
      (∀ kvs2 : List KV, kvs2.Perm orderingSample →
        sortStrings ((generics kvs2).map renderKV) =
          sortStrings ((generics orderingSample).map renderKV)) ∧
      ∃ pre rest, PrettyPrint trivialEnv.fmtTime
          { Structured := some orderingRecord, Raw := "" } =
        .ok ((pre ++ goBytes (tabJoin (sortStrings ((generics orderingSample).map renderKV)))) ::
          rest) :=
  renderer_kv_ordering trivialEnv.fmtTime "" orderingRecord
    (by
      intro kv hkv hres
      simp only [orderingRecord, orderingSample, List.mem_cons, List.not_mem_nil,
        or_false] at hkv
      rcases hkv with h | h | h
      · rw [h] at hres
        exact absurd hres (by decide)
      · rw [h] at hres
        exact absurd hres (by decide)
      · exact ⟨"x.go:1", by rw [h]⟩)
    (by decide)

end Prettylog

namespace Prettylog

/- C8. The traceback block. -/

theorem lastStrVal_absent {kvs : List KV} {k : String}
    (h : k ∉ kvs.map KV.Key) (d : String) : lastStrVal k kvs d = d := by
  induction kvs generalizing d with
  | nil => rfl
  | cons kv rest ih =>
    simp only [List.map_cons, List.mem_cons] at h
    push_neg at h
    simp only [lastStrVal, List.foldl_cons]
    rw [if_neg (fun he => h.1 he.symm)]
    exact ih h.2 d

theorem lastStrVal_unique {kvs : List KV} {k st : String}
    (hnd : (kvs.map KV.Key).Nodup) (hmem : KV.mk k (.str st) ∈ kvs) (d : String) :
    lastStrVal k kvs d = st := by
  induction kvs generalizing d with
  | nil => cases hmem
  | cons kv rest ih =>
    simp only [List.map_cons, List.nodup_cons] at hnd
    rcases List.mem_cons.mp hmem with heq | hmem2
    · have hk : kv.Key = k := by rw [← heq]
      have hv : kv.Value = .str st := by rw [← heq]
      have habs : k ∉ rest.map KV.Key := by
        rw [← hk]
        exact hnd.1
      simp only [lastStrVal, List.foldl_cons]
      rw [if_pos hk, hv]
      exact lastStrVal_absent habs st
    · have hk : kv.Key ≠ k := by
        intro he
        apply hnd.1
        rw [he]
        exact List.mem_map.mpr ⟨KV.mk k (.str st), hmem2, rfl⟩
      simp only [lastStrVal, List.foldl_cons]
      rw [if_neg hk]
      exact ih hnd.2 hmem2 d

/-- A structured record whose fields bind stacktrace to the empty
string. -/
def emptyStackRecord : Structured :=
  { Time := GoTime.zeroValue, Msg := "", Level := "", KVs := [⟨"stacktrace", .str ""⟩] }

/-- C8 (counterexample): a stacktrace string was extracted from
emptyStackRecord (the empty string), yet the renderer emits only the
main line — one output record — while the claim requires the bordered
block as well: an opening line, one content line per newline-delimited
segment (here one empty segment) and a closing line, i.e. four records
in total. -/
theorem traceback_empty_counterexample :
    (PrettyPrint trivialEnv.fmtTime
        { Structured := some emptyStackRecord, Raw := "" }).map List.length = .ok 1 ∧
      1 ≠ 1 + ((("" : String).splitOn "\n").length + 2) :=
  ⟨rfl, by decide⟩

/-- C8 (amended): for every structured event that renders and from whose
fields a NONEMPTY stacktrace string st was extracted, the renderer emits
after the main line a bordered block: the opening box-top line, exactly
one vertical-bar-prefixed content line per newline-delimited segment of
st, and the closing box-bottom line, all wrapped in the ErrorLevelColor
of the palette whatever the record's own level is; and every rendered
generic key=value segment comes from a field whose key is neither
stacktrace nor caller, so the stacktrace key never appears in the
generic list. An extracted EMPTY stacktrace string suppresses the block
(the counterexample). -/
theorem renderer_traceback_block (fmt : GoTime → String) (raw : String) (data : Structured)
    (st : String)
    (hstr : ∀ kv ∈ data.KVs, (kv.Key = "stacktrace" ∨ kv.Key = "caller") →
      ∃ s, kv.Value = .str s)
    (hlvl : (levelLabelBytes data.Level).isSome)
    (hnd : (data.KVs.map KV.Key).Nodup)
    (hmem : KV.mk "stacktrace" (.str st) ∈ data.KVs)
    (hne : st ≠ "") :
    (∃ main, PrettyPrint fmt { Structured := some data, Raw := raw } =
        .ok (main ::
          goBytes (DefaultPalette.ErrorLevelColor.sprint traceTop) ::
            ((st.splitOn "\n").map
              (fun line => goBytes (DefaultPalette.ErrorLevelColor.sprint "│" ++ line)) ++
            [goBytes (DefaultPalette.ErrorLevelColor.sprint traceBottom)]))) ∧
      ∀ seg ∈ sortStrings ((generics data.KVs).map renderKV),
        ∃ kv, kv ∈ data.KVs ∧ kv.Key ≠ "stacktrace" ∧ kv.Key ≠ "caller" ∧
          seg = renderKV kv := by
  rcases Option.isSome_iff_exists.mp hlvl with ⟨lb, hlb⟩
  have hst : lastStrVal "stacktrace" data.KVs "" = st := lastStrVal_unique hnd hmem ""
  constructor
  · refine ⟨goBytes (DefaultPalette.TimeColor.sprint (fmt data.Time) ++ " [") ++
        (categoryColor (levelCategory data.Level)).sprintBytes lb ++
        goBytes ("] " ++ data.Msg ++ "	[" ++
          DefaultPalette.CallerColor.sprint (lastStrVal "caller" data.KVs "") ++ "] " ++
          tabJoin (sortStrings ((generics data.KVs).map renderKV))), ?_⟩
    rw [prettyPrint_structured fmt raw data hlb hstr, hst, if_neg hne]
    rfl
  · intro seg hseg
    have hseg2 : seg ∈ (generics data.KVs).map renderKV :=
      (sortStrings_perm _).mem_iff.mp hseg
    rcases List.mem_map.mp hseg2 with ⟨kv, hkv, hr⟩
    have hf := List.mem_filter.mp hkv
    refine ⟨kv, hf.1, ?_, ?_, hr.symm⟩
    · intro he
      have := hf.2
      rw [he] at this
      simp at this
    · intro he
      have := hf.2
      rw [he] at this
      simp at this

/-- A structured record with a two-segment stacktrace, a caller and one
generic field, at level info. -/
def stackSampleRecord : Structured :=
  { Time := GoTime.zeroValue, Msg := "boom", Level := "info",
    KVs := [⟨"k", .str "v"⟩, ⟨"stacktrace", .str "frame1\nframe2"⟩, ⟨"caller", .str "x.go:1"⟩] }

/-- C8 (witness): the traceback theorem applied to stackSampleRecord,
whose stacktrace has two newline-delimited segments and whose level is
info, not error. -/
theorem renderer_traceback_block_witness :
    (∃ main, PrettyPrint trivialEnv.fmtTime
        { Structured := some stackSampleRecord, Raw := "" } =
        .ok (main ::
          goBytes (DefaultPalette.ErrorLevelColor.sprint traceTop) ::
            ((("frame1\nframe2" : String).splitOn "\n").map
              (fun line => goBytes (DefaultPalette.ErrorLevelColor.sprint "│" ++ line)) ++
            [goBytes (DefaultPalette.ErrorLevelColor.sprint traceBottom)]))) ∧
      ∀ seg ∈ sortStrings ((generics stackSampleRecord.KVs).map renderKV),
        ∃ kv, kv ∈ stackSampleRecord.KVs ∧ kv.Key ≠ "stacktrace" ∧ kv.Key ≠ "caller" ∧
          seg = renderKV kv :=
  renderer_traceback_block trivialEnv.fmtTime "" stackSampleRecord "frame1\nframe2"
    (by
      intro kv hkv hres
      simp only [stackSampleRecord, List.mem_cons, List.not_mem_nil, or_false] at hkv
      rcases hkv with h | h | h
      · rw [h] at hres
        exact absurd hres (by decide)
      · exact ⟨"frame1\nframe2", by rw [h]⟩
      · exact ⟨"x.go:1", by rw [h]⟩)
    (by decide) (by decide) (by decide) (by decide)

end Prettylog

namespace Prettylog

/- C9 and C10. The scanner loop: per-line cancellation polling and the
return value of a cancelled run. -/

/-- Concatenated renderings of a list of lines (what Scan writes when no
line panics; the error alternative is never reached under the
render-success hypothesis of the theorems below). -/
def renderedLines (env : Env) (ls : List String) : List (List Nat) :=
  ls.flatMap (fun l =>
    match PrettyPrint env.fmtTime (mkEvent env l) with
    | .ok out => out
    | .error _ => [])

theorem scan_no_cancel (env : Env) :
    ∀ (lines : List String) (readErr : Option GoError),
      (∀ l ∈ lines, ∃ out, PrettyPrint env.fmtTime (mkEvent env l) = .ok out) →
      ∀ cancel : Nat → Bool, (∀ i, i < lines.length → cancel i = false) →
      Scan env cancel lines readErr = .ok (renderedLines env lines, none) := by
  intro lines
  induction lines with
  | nil =>
    intro readErr hok cancel hc
    rfl
  | cons l rest ih =>
    intro readErr hok cancel hc
    rcases hok l (by simp) with ⟨out, hout⟩
    have hrest : ∀ x ∈ rest, ∃ o, PrettyPrint env.fmtTime (mkEvent env x) = .ok o :=
      fun x hx => hok x (List.mem_cons.mpr (Or.inr hx))
    have hc0 : cancel 0 = false := hc 0 (by simp)
    have hcrest : ∀ i, i < rest.length → cancel (i + 1) = false :=
      fun i hi => hc (i + 1) (by simp; omega)
    simp only [Scan, hout, hc0, Bool.false_eq_true, if_false]
    rw [ih readErr hrest (fun i => cancel (i + 1)) hcrest]
    simp [renderedLines, hout]

theorem scan_cancel_at (env : Env) :
    ∀ (lines : List String) (readErr : Option GoError) (cancel : Nat → Bool) (k : Nat),
      (∀ l ∈ lines, ∃ out, PrettyPrint env.fmtTime (mkEvent env l) = .ok out) →
      k < lines.length →
      (∀ j, j < k → cancel j = false) →
      cancel k = true →
      Scan env cancel lines readErr = .ok (renderedLines env (lines.take (k + 1)), none) := by
  intro lines
  induction lines with
  | nil =>
    intro readErr cancel k hok hk
    exact absurd hk (by simp)
  | cons l rest ih =>
    intro readErr cancel k hok hk hbefore hcancel
    rcases hok l (by simp) with ⟨out, hout⟩
    have hrest : ∀ x ∈ rest, ∃ o, PrettyPrint env.fmtTime (mkEvent env x) = .ok o :=
      fun x hx => hok x (List.mem_cons.mpr (Or.inr hx))
    cases k with
    | zero =>
      simp only [Scan, hout, hcancel, if_true]
      simp [renderedLines, hout]
    | succ k2 =>
      have hc0 : cancel 0 = false := hbefore 0 (by omega)
      simp only [Scan, hout, hc0, Bool.false_eq_true, if_false]
      rw [ih readErr (fun i => cancel (i + 1)) k2 hrest (by simp at hk; omega)
        (fun j hj => hbefore (j + 1) (by omega)) hcancel]
      simp [renderedLines, hout, List.take_succ_cons]

theorem scan_cancel_agree (env : Env) :
    ∀ (lines : List String) (readErr : Option GoError) (c1 c2 : Nat → Bool),
      (∀ i, i < lines.length → c1 i = c2 i) →
      Scan env c1 lines readErr = Scan env c2 lines readErr := by
  intro lines
  induction lines with
  | nil =>
    intro readErr c1 c2 hagree
    rfl
  | cons l rest ih =>
    intro readErr c1 c2 hagree
    have h0 : c1 0 = c2 0 := hagree 0 (by simp)
    have hshift : ∀ i, i < rest.length → c1 (i + 1) = c2 (i + 1) :=
      fun i hi => hagree (i + 1) (by simp; omega)
    simp only [Scan, h0,
      ih readErr (fun i => c1 (i + 1)) (fun i => c2 (i + 1)) hshift]

/-- C9: in-flight lines always complete — when the cancellation signal
first fires at the poll after line k, Scan has rendered lines 0 through
k in full, stops there, and returns without error; the result depends on
at most one poll per completed line (signals agreeing on the first
length-many polls are indistinguishable); and with no cancellation a
normal end-of-stream renders every line and returns without error. -/
theorem scan_polls_per_line (env : Env) (lines : List String)
    (hok : ∀ l ∈ lines, ∃ out, PrettyPrint env.fmtTime (mkEvent env l) = .ok out) :
    (∀ (cancel : Nat → Bool) (readErr : Option GoError) (k : Nat), k < lines.length →
      (∀ j, j < k → cancel j = false) → cancel k = true →
      Scan env cancel lines readErr = .ok (renderedLines env (lines.take (k + 1)), none)) ∧
      (∀ c1 c2 : Nat → Bool, (∀ i, i < lines.length → c1 i = c2 i) →
        ∀ readErr, Scan env c1 lines readErr = Scan env c2 lines readErr) ∧
      Scan env neverCancel lines none = .ok (renderedLines env lines, none) :=
  ⟨fun cancel readErr k hk hb hc => scan_cancel_at env lines readErr cancel k hok hk hb hc,
    fun c1 c2 hagree readErr => scan_cancel_agree env lines readErr c1 c2 hagree,
    scan_no_cancel env lines none hok neverCancel (fun _ _ => rfl)⟩

/-- C9 (witness): scanning three lines with a signal that fires at the
second poll renders exactly the first two lines; with no cancellation all
three render; both runs return without error. -/
theorem scan_polls_per_line_witness :
    Scan trivialEnv (fun i => i == 1) ["a", "b", "c"] none =
        .ok (renderedLines trivialEnv (["a", "b", "c"].take 2), none) ∧
      Scan trivialEnv neverCancel ["a", "b", "c"] none =
        .ok (renderedLines trivialEnv ["a", "b", "c"], none) := by
  have h := scan_polls_per_line trivialEnv ["a", "b", "c"]
    (fun l hl => ⟨[goBytes l], rfl⟩)
  refine ⟨?_, h.2.2⟩
  exact h.1 (fun i => i == 1) none 1 (by decide)
    (fun j hj => by
      have hj0 : j = 0 := by omega
      rw [hj0]
      rfl)
    (by decide)

/-- C10: a run stopped by the cancellation signal returns nil, exactly
as a completed run does on normal end-of-stream, so the caller cannot
tell a cancelled run from a completed one by Scan's return value — even
when the cancelled run's stream had a pending read failure. -/
theorem scan_cancel_returns_nil (env : Env) (lines : List String)
    (cancel : Nat → Bool) (readErr : Option GoError) (k : Nat)
    (hok : ∀ l ∈ lines, ∃ out, PrettyPrint env.fmtTime (mkEvent env l) = .ok out)
    (hk : k < lines.length) (hbefore : ∀ j, j < k → cancel j = false)
    (hcancel : cancel k = true) :
    (Scan env cancel lines readErr).map Prod.snd = .ok none ∧
      (Scan env neverCancel lines none).map Prod.snd = .ok none := by
  constructor
  · rw [scan_cancel_at env lines readErr cancel k hok hk hbefore hcancel]
    rfl
  · rw [scan_no_cancel env lines none hok neverCancel (fun _ _ => rfl)]
    rfl

/-- C10 (witness): a run of three lines cancelled at the second poll,
with a pending oversized-line failure in the stream, returns nil just as
the uncancelled clean run does. -/
theorem scan_cancel_returns_nil_witness :
    (Scan trivialEnv (fun i => i == 1) ["a", "b", "c"] (some .errTooLong)).map Prod.snd =
        .ok none ∧
      (Scan trivialEnv neverCancel ["a", "b", "c"] none).map Prod.snd = .ok none :=
  scan_cancel_returns_nil trivialEnv ["a", "b", "c"] (fun i => i == 1)
    (some .errTooLong) 1 (fun l hl => ⟨[goBytes l], rfl⟩) (by decide)
    (fun j hj => by
      have hj0 : j = 0 := by omega
      rw [hj0]
      rfl)
    (by decide)

end Prettylog

namespace Prettylog

/-- Modelled from encoding/json, the decode behavior that refutes C6 as
stated: Unmarshal of the JSON literal null into a map returns no error
and leaves the map empty (a nil map reads as empty and iterates zero
entries), while every other non-object line errors. Layouts never parse
and times format to the empty string, as in trivialEnv. -/
def nullDecodeEnv : Env where
  decode := fun line => if line = "null" then some [] else none
  parseLayout := fun _ _ => none
  fmtTime := fun _ => ""

/-- The empty structured record that classifying the line null produces:
zero time, empty message and level, no fields. -/
def emptyRecord : Structured :=
  { Time := GoTime.zeroValue, Msg := "", Level := "", KVs := [] }

/-- The decorated main line the renderer emits for emptyRecord under the
trivial time formatter: colorized (empty) time, brackets around the
empty Unknown-category level label, tab, brackets around the empty
caller, and an empty key=value list. -/
def nullDecorated : List Nat :=
  goBytes (DefaultPalette.TimeColor.sprint "" ++ " [") ++
    DefaultPalette.UnknownLevelColor.sprintBytes [] ++
    goBytes ("] " ++ "\t[" ++ DefaultPalette.CallerColor.sprint "" ++ "] ")

/-- C6 (counterexample): the input line null is valid JSON but not a
JSON object, yet it decodes without error, classification succeeds —
the Event carries the empty structured record — and the renderer emits
a decorated line, not the raw text null. -/
theorem rawLine_null_counterexample :
    nullDecodeEnv.decode "null" = some [] ∧
      (mkEvent nullDecodeEnv "null").Structured = some emptyRecord ∧
        PrettyPrint nullDecodeEnv.fmtTime (mkEvent nullDecodeEnv "null") =
          .ok [nullDecorated] ∧
          nullDecorated ≠ goBytes "null" := by
  refine ⟨rfl, rfl, ?_, by decide⟩
  show PrettyPrint nullDecodeEnv.fmtTime { Structured := some emptyRecord, Raw := "null" } =
    Except.ok [nullDecorated]
  rw [prettyPrint_structured nullDecodeEnv.fmtTime "null" emptyRecord rfl (fun _ hk => nomatch hk)]
  simp [emptyRecord, nullDecorated, lastStrVal, sortStrings, tabJoin, generics,
    goBytes_append]
  decide

end Prettylog
